import Mathlib

/-!
# reprabbitclient: request/response layer over the rabbit transport

A shallow embedding of `communication/rabbit/reprabbitclient/reprabbitclient.go`.

* Byte slices are lists of byte values.
* A Go `error` is a value of `GoError`; `nil` is `none : Option GoError`.
* The transport (`rabbitclient.RabbitClientInterface`) and `encoding/json` at the
  types of a call site are collaborators outside the file; they are parameters.
* Every effect of `request` that a caller can observe is recorded: the calls made
  to the collaborators (`trace`), the state of the destination `resp` points to,
  and the returned error.
* Goroutines are modelled by the pending actions of every unit and a schedule that
  decides which ready unit moves next.
-/

namespace RepRabbitClient

/-! ## Data model -/

/-- A Go byte slice. -/
abbrev Bytes := List Nat

/-- Values of Go's `error` interface met by this file.  The two package level
values made with `errors.New` are constructors of their own: an error from
elsewhere is never identical to them, even when its text is the same. -/
inductive GoError where
  | TimeoutError
  | RequestFailedError
  | other (text : String)
  deriving DecidableEq, Repr

/-- The method `Error()` of an error value. -/
def GoError.Error : GoError → String
  | .TimeoutError => "timeout"
  | .RequestFailedError => "request failed"
  | .other text => text

/-- The byte sequence of the string literal `"error"` (line 53). -/
def sentinel : Bytes := [101, 114, 114, 111, 114]

/-- A call observed at a collaborator. -/
inductive Event where
  /-- A call `json.Marshal(req)`. -/
  | marshal
  /-- A call `client.Request(guid, subject, payload, timeout)`; `call` identifies
  the invocation. -/
  | transport (call : Nat) (guid subject : String) (payload : Bytes) (timeout : Nat)
  /-- A call `json.Unmarshal(response, resp)`. -/
  | unmarshal (response : Bytes)
  deriving DecidableEq, Repr

/-- The transport, `rabbitclient.RabbitClientInterface`.  `Request` returns a
payload and an error.  The transport is a stateful collaborator: two invocations
with equal arguments can be answered differently, so the answer also depends on
which invocation it is (first argument). -/
structure RabbitClientInterface where
  Request : Nat → String → String → Bytes → Nat → Bytes × Option GoError

/-- The struct `RepRabbitClient` (lines 19-22). -/
structure Client where
  client : RabbitClientInterface
  timeout : Nat

/-- The two functions of `encoding/json` at the request type `α` and response
type `ρ` of a call site.  `Unmarshal response v` returns the value stored in the
destination afterwards (it may be written even when decoding fails) and the
error. -/
structure JSON (α ρ : Type) where
  Marshal : α → Bytes × Option GoError
  Unmarshal : Bytes → ρ → ρ × Option GoError

/-- What a caller of `request` can observe. `resp` is the value held by the
destination afterwards (`none` when `resp` was nil). -/
structure RequestOutcome (ρ : Type) where
  trace : List Event
  resp : Option ρ
  err : Option GoError

/-! ## `request` (lines 38-62) -/

/-- Lines 47-61 of `request`: everything after the request value was encoded into
`payload`; `before` holds the collaborator calls made so far. -/
def exchange {α ρ : Type} (rep : Client) (json : JSON α ρ) (call : Nat)
    (guid subject : String) (payload : Bytes) (resp : Option ρ)
    (before : List Event) : RequestOutcome ρ :=
  let sent := before ++ [Event.transport call guid subject payload rep.timeout]
  match rep.client.Request call guid subject payload rep.timeout with
  | (_, some err) => { trace := sent, resp := resp, err := some err }
  | (response, none) =>
    if response = sentinel then
      { trace := sent, resp := resp, err := some GoError.RequestFailedError }
    else
      match resp with
      | some dest =>
        let decoded := json.Unmarshal response dest
        { trace := sent ++ [Event.unmarshal response], resp := some decoded.1,
          err := decoded.2 }
      | none => { trace := sent, resp := none, err := none }

/-- The method `request` (lines 38-62).  `req = none` is a nil request value,
`resp = none` a nil destination. -/
def request {α ρ : Type} (rep : Client) (json : JSON α ρ) (call : Nat)
    (guid subject : String) (req : Option α) (resp : Option ρ) : RequestOutcome ρ :=
  match req with
  | some v =>
    match json.Marshal v with
    | (_, some err) => { trace := [Event.marshal], resp := resp, err := some err }
    | (payload, none) => exchange rep json call guid subject payload resp [Event.marshal]
  | none => exchange rep json call guid subject [] resp []

/-! ## Single-target operations (lines 64-95 and 141-146) -/

/-- How a Go function without an error result can end. -/
inductive Outcome (β : Type) where
  | returned (value : β)
  | panicked (err : GoError)
  deriving DecidableEq, Repr

/-- What a caller of a single-target operation can observe. -/
structure OpResult (β : Type) where
  trace : List Event
  log : List String
  outcome : Outcome β

/-- Lines 64-71.  The request value is the empty, non-nil byte slice `[]byte{}`. -/
def TotalResources {Resources : Type} (rep : Client) (json : JSON Bytes Resources)
    (zero : Resources) (guid : String) : OpResult Resources :=
  let r := request rep json 0 guid "total_resources" (some []) (some zero)
  match r.err with
  | some err => { trace := r.trace, log := [], outcome := Outcome.panicked err }
  | none => { trace := r.trace, log := [], outcome := Outcome.returned (r.resp.getD zero) }

/-- Lines 73-81.  The destination starts as the nil slice. -/
def LRPAuctionInfos {α Info : Type} (rep : Client) (json : JSON α (List Info))
    (guid : String) : OpResult (List Info) :=
  let r := request rep json 0 guid "lrp_auction_infos" none (some [])
  match r.err with
  | some err => { trace := r.trace, log := [], outcome := Outcome.panicked err }
  | none => { trace := r.trace, log := [], outcome := Outcome.returned (r.resp.getD []) }

/-- Lines 83-88. -/
def Reset {α ρ : Type} (rep : Client) (json : JSON α ρ) (guid : String) : OpResult Unit :=
  let r := request rep json 0 guid "reset" none none
  match r.err with
  | some err => { trace := r.trace, log := [], outcome := Outcome.panicked err }
  | none => { trace := r.trace, log := [], outcome := Outcome.returned () }

/-- Lines 90-95. -/
def SetLRPAuctionInfos {Info ρ : Type} (rep : Client) (json : JSON (List Info) ρ)
    (guid : String) (instances : List Info) : OpResult Unit :=
  let r := request rep json 0 guid "set_lrp_auction_infos" (some instances) none
  match r.err with
  | some err => { trace := r.trace, log := [], outcome := Outcome.panicked err }
  | none => { trace := r.trace, log := [], outcome := Outcome.returned () }

/-- Lines 141-146.  `log.Println` writes its operands separated by a blank. -/
def Run {Start ρ : Type} (rep : Client) (json : JSON Start ρ) (guid : String)
    (inst : Start) : OpResult Unit :=
  let r := request rep json 0 guid "run" (some inst) none
  match r.err with
  | some err =>
    { trace := r.trace, log := ["failed to run: " ++ err.Error], outcome := Outcome.returned () }
  | none => { trace := r.trace, log := [], outcome := Outcome.returned () }

/-! ## `encoding/json` on a byte slice -/

/-- The alphabet of `base64.StdEncoding`. -/
def base64Alphabet : List Char :=
  "ABCDEFGHIJKLMNOPQRSTUVWXYZabcdefghijklmnopqrstuvwxyz0123456789+/".toList

/-- The byte of the base64 digit with value `v`. -/
def base64Digit (v : Nat) : Nat := (base64Alphabet.getD v 'A').toNat

/-- The encoding `base64.StdEncoding` of a byte slice, with `=` (61) padding. -/
def base64 : Bytes → Bytes
  | a :: b :: c :: rest =>
    base64Digit (a / 4) :: base64Digit ((a % 4) * 16 + b / 16) ::
      base64Digit ((b % 16) * 4 + c / 64) :: base64Digit (c % 64) :: base64 rest
  | [a, b] =>
    [base64Digit (a / 4), base64Digit ((a % 4) * 16 + b / 16), base64Digit ((b % 16) * 4), 61]
  | [a] => [base64Digit (a / 4), base64Digit ((a % 4) * 16), 61, 61]
  | [] => []

/-- The result of `json.Marshal` on a non-nil `[]byte`: the base64 text of the
bytes between two double quotes (34); it never fails. -/
def marshalBytes (b : Bytes) : Bytes × Option GoError := (34 :: base64 b ++ [34], none)

/-! ## Scheduling of concurrent units -/

/-- Number of units that have an action pending. -/
def readyCount {β : Type} : List (List β) → Nat
  | [] => 0
  | [] :: us => readyCount us
  | (_ :: _) :: us => readyCount us + 1

/-- Take the next action of the `k`-th unit (counting from 0) among those that
have one pending; the other units are left as they are. -/
def pick {β : Type} : Nat → List (List β) → Option (β × List (List β))
  | _, [] => none
  | k, [] :: us => (pick k us).map fun r => (r.1, [] :: r.2)
  | 0, (a :: u) :: us => some (a, u :: us)
  | k + 1, (a :: u) :: us => (pick k us).map fun r => (r.1, (a :: u) :: r.2)

/-- One scheduling decision: `choice` selects one of the ready units, whatever
its value; there is no move when no unit is ready. -/
def schedule {β : Type} (choice : Nat) (units : List (List β)) : Option (β × List (List β)) :=
  if readyCount units = 0 then none else pick (choice % readyCount units) units

/-! ## `batch`, `Score`, `ScoreThenTentativelyReserve` (lines 97-126) -/

/-- Modelled from the spec: the type `auctiontypes.ScoreResult` is declared
outside this file.  A per-target result is a decoded success payload or an error
marker that carries a string description; the code writes the field `Error` and
relies on the zero value of the rest, kept here as the field `Score`. -/
structure ScoreResult where
  Score : Int
  Error : String
  deriving DecidableEq, Repr

/-- The zero value `var response auctiontypes.ScoreResult` (line 101). -/
def ScoreResult.zero : ScoreResult := { Score := 0, Error := "" }

/-- The type `auctiontypes.ScoreResults`. -/
abbrev ScoreResults := List ScoreResult

/-- The values the goroutine of lines 100-109 sends on the channel `c`, in
order, for the target `guid` at position `i` of `guids`. -/
def unitSends {α : Type} (rep : Client) (json : JSON α ScoreResult) (subject : String)
    (inst : α) (i : Nat) (guid : String) : List ScoreResult :=
  let r := request rep json i guid subject (some inst) (some ScoreResult.zero)
  let response := r.resp.getD ScoreResult.zero
  match r.err with
  | some err => [{ ScoreResult.zero with Error := err.Error }, response]
  | none => [response]

/-- The loop of lines 113-115: one receive from `c` per element of `guids`.
The channel is unbuffered, so a receive takes the pending send of some unit
(chosen by the head of `sched`); `none` when a receive blocks forever. -/
def collect : List String → List Nat → List (List ScoreResult) → ScoreResults →
    Option ScoreResults
  | [], _, _, scores => some scores
  | _ :: rest, sched, units, scores =>
    match schedule (sched.headD 0) units with
    | none => none
    | some (r, units') => collect rest sched.tail units' (scores ++ [r])

/-- The method `batch` (lines 97-118) under the schedule `sched`. -/
def batch {α : Type} (rep : Client) (json : JSON α ScoreResult) (sched : List Nat)
    (subject : String) (guids : List String) (inst : α) : Option ScoreResults :=
  collect guids sched
    (guids.enum.map fun p => unitSends rep json subject inst p.1 p.2) []

/-- Lines 120-122. -/
def Score {α : Type} (rep : Client) (json : JSON α ScoreResult) (sched : List Nat)
    (guids : List String) (inst : α) : Option ScoreResults :=
  batch rep json sched "score" guids inst

/-- Lines 124-126. -/
def ScoreThenTentativelyReserve {α : Type} (rep : Client) (json : JSON α ScoreResult)
    (sched : List Nat) (guids : List String) (inst : α) : Option ScoreResults :=
  batch rep json sched "score_then_tentatively_reserve" guids inst

/-! ## `ReleaseReservation` (lines 128-139) -/

/-- The two statements of the goroutine of lines 132-135. -/
inductive Action where
  /-- Line 133, for the target `guid` at position `i` of `guids`. -/
  | call (i : Nat) (guid : String)
  /-- Line 134, `allReceived.Done()`. -/
  | done
  deriving DecidableEq, Repr

/-- A call of `request` that has returned: its unit, its arguments and what it
returned. -/
structure Completed (ρ : Type) where
  i : Nat
  guid : String
  subject : String
  dest : Option ρ
  result : RequestOutcome ρ

/-- The state of a run of `ReleaseReservation`: the counter of the wait group,
the statements every unit has still to execute, and the calls of `request` that
have returned so far. -/
structure Barrier (ρ : Type) where
  counter : Int
  units : List (List Action)
  completed : List (Completed ρ)

/-- Lines 129-136: the state once `Add(len(guids))` has run and all units are
spawned. -/
def Barrier.init (ρ : Type) (guids : List String) : Barrier ρ :=
  { counter := guids.length,
    units := guids.enum.map fun p => [Action.call p.1 p.2, Action.done],
    completed := [] }

/-- Execute one statement of a unit. -/
def Barrier.exec {α ρ : Type} (rep : Client) (json : JSON α ρ) (inst : α)
    (st : Barrier ρ) (a : Action) (units' : List (List Action)) : Barrier ρ :=
  match a with
  | Action.call i guid =>
    { counter := st.counter, units := units',
      completed := st.completed ++
        [{ i := i, guid := guid, subject := "release-reservation", dest := none,
           result := request rep json i guid "release-reservation" (some inst) none }] }
  | Action.done => { counter := st.counter - 1, units := units', completed := st.completed }

/-- One move of the system: the unit selected by `choice` executes its next
statement; `none` when every unit has finished. -/
def Barrier.step {α ρ : Type} (rep : Client) (json : JSON α ρ) (inst : α)
    (choice : Nat) (st : Barrier ρ) : Option (Barrier ρ) :=
  (schedule choice st.units).map fun r => Barrier.exec rep json inst st r.1 r.2

/-- The state after the moves selected by `sched`, one per element, stopping
early when no unit can move. -/
def Barrier.run {α ρ : Type} (rep : Client) (json : JSON α ρ) (inst : α) :
    List Nat → Barrier ρ → Barrier ρ
  | [], st => st
  | choice :: sched, st =>
    match Barrier.step rep json inst choice st with
    | none => st
    | some st' => Barrier.run rep json inst sched st'

/-- The call `allReceived.Wait()` (line 138): it returns once the counter is zero;
until then the units move as `sched` selects (0 when `sched` is used up).
`fuel` bounds the number of moves waited for; `none` when the counter is not
zero and no unit can move, or the fuel is spent. -/
def Barrier.wait {α ρ : Type} (rep : Client) (json : JSON α ρ) (inst : α) :
    Nat → List Nat → Barrier ρ → Option (Barrier ρ)
  | 0, _, st => if st.counter = 0 then some st else none
  | fuel + 1, sched, st =>
    if st.counter = 0 then some st
    else
      match Barrier.step rep json inst (sched.headD 0) st with
      | none => none
      | some st' => Barrier.wait rep json inst fuel sched.tail st'

/-- The run of `ReleaseReservation` (lines 128-139) under the schedule `sched`:
the final state of the barrier when `Wait` returns.  Every unit has two
statements, so `2 * len(guids)` moves are waited for at most. -/
def releaseRun {α ρ : Type} (rep : Client) (json : JSON α ρ) (sched : List Nat)
    (guids : List String) (inst : α) : Option (Barrier ρ) :=
  Barrier.wait rep json inst (2 * guids.length) sched (Barrier.init ρ guids)

/-- The method `ReleaseReservation` (lines 128-139): it has no result, so all a
caller observes is that it returned (`some ()`) or that it blocks forever
(`none`). -/
def ReleaseReservation {α ρ : Type} (rep : Client) (json : JSON α ρ) (sched : List Nat)
    (guids : List String) (inst : α) : Option Unit :=
  (releaseRun rep json sched guids inst).map fun _ => ()

/-! ## Concrete collaborators used to evaluate the code -/

/-- A decoder for score results: the one-byte payload `7` (55) decodes to the
score 7, any other payload is rejected and leaves the destination untouched. -/
def scoreJSON : JSON Unit ScoreResult :=
  { Marshal := fun _ => ([123, 125], none),
    Unmarshal := fun response dest =>
      if response = [55] then ({ dest with Score := 7 }, none)
      else (dest, some (GoError.other "invalid character")) }

/-- A transport in which the target `b` does not answer before the deadline and
every other target answers with the payload `7`. -/
def bTimesOut : Client :=
  { client := { Request := fun _ guid _ _ _ =>
      if guid = "b" then ([], some GoError.TimeoutError) else ([55], none) },
    timeout := 1000 }

/-- A transport in which no target answers before the deadline. -/
def allTimeOut : Client :=
  { client := { Request := fun _ _ _ _ _ => ([], some GoError.TimeoutError) },
    timeout := 1000 }

/-- A transport that echoes the request payload. -/
def echo : Client :=
  { client := { Request := fun _ _ _ payload _ => (payload, none) }, timeout := 1000 }

/-- A codec on byte slices: `json.Marshal` as on `[]byte`, and a decoder that
stores the payload. -/
def bytesJSON : JSON Bytes Bytes :=
  { Marshal := marshalBytes, Unmarshal := fun response _ => (response, none) }

/-! ## Vocabulary of the statements -/

/-- The payload and error `request` holds after lines 39-45. -/
def encodeRequest {α ρ : Type} (json : JSON α ρ) (req : Option α) : Bytes × Option GoError :=
  match req with
  | some v => json.Marshal v
  | none => ([], none)

/-- Whether an observed call is a call of the transport. -/
def Event.isTransport : Event → Bool
  | Event.transport _ _ _ _ _ => true
  | _ => false

/-- Whether an observed call is a call of `json.Unmarshal`. -/
def Event.isUnmarshal : Event → Bool
  | Event.unmarshal _ => true
  | _ => false

/-- The calls of the transport among the observed calls, in order. -/
def transportCalls (trace : List Event) : List Event := trace.filter Event.isTransport

/-- The calls of `json.Unmarshal` among the observed calls, in order. -/
def unmarshalCalls (trace : List Event) : List Event := trace.filter Event.isUnmarshal

/-- A transport in which every target answers with the reserved payload `error`. -/
def saysError : Client :=
  { client := { Request := fun _ _ _ _ _ => (sentinel, none) }, timeout := 1000 }

/-- A transport that fails with a timeout and still hands back the bytes `7`. -/
def lateReply : Client :=
  { client := { Request := fun _ _ _ _ _ => ([55], some GoError.TimeoutError) },
    timeout := 1000 }

/-- The target of a `call` statement. -/
def Action.target : Action → Option (Nat × String)
  | Action.call i guid => some (i, guid)
  | Action.done => none

/-- The targets whose call of `request` has not been made yet. -/
def pendingCalls (units : List (List Action)) : List (Nat × String) :=
  units.flatten.filterMap Action.target

/-- The unit and target of a call of `request` that has returned. -/
def Completed.target {ρ : Type} (c : Completed ρ) : Nat × String := (c.i, c.guid)

/-- Number of actions still to be executed by all units together. -/
def pendingWork {β : Type} (units : List (List β)) : Nat := (units.map List.length).sum

/-- The invariant of a run of `ReleaseReservation` on `guids`: every unit is at
the start, between its two statements or finished; the counter is the number of
units that have not called `Done`; every target's call has either returned or
is still to be made, never both and never twice; and every returned call was
made with the subject `release-reservation` and no destination. -/
structure Barrier.Inv {α ρ : Type} (rep : Client) (json : JSON α ρ) (inst : α)
    (guids : List String) (st : Barrier ρ) : Prop where
  shape : ∀ u ∈ st.units, u = [] ∨ u = [Action.done] ∨ ∃ i guid, u = [Action.call i guid, Action.done]
  count : st.counter = readyCount st.units
  calls : (st.completed.map Completed.target ++ pendingCalls st.units).Perm guids.enum
  made : ∀ c ∈ st.completed, c.subject = "release-reservation" ∧ c.dest = none ∧
    c.result = request rep json c.i c.guid "release-reservation" (some inst) none

/-! ## `request` -/

/-- The transport calls of `exchange` are the ones made before plus one. -/
theorem transportCalls_exchange {α ρ : Type} (rep : Client) (json : JSON α ρ) (call : Nat)
    (guid subject : String) (payload : Bytes) (resp : Option ρ) (before : List Event) :
    transportCalls (exchange rep json call guid subject payload resp before).trace =
      transportCalls before ++ [Event.transport call guid subject payload rep.timeout] := by
  unfold exchange
  rcases h : rep.client.Request call guid subject payload rep.timeout with ⟨response, _ | err⟩
  · by_cases hs : response = sentinel
    · simp [hs, transportCalls, Event.isTransport]
    · cases resp <;> simp [hs, transportCalls, Event.isTransport]
  · simp [transportCalls, Event.isTransport]

/-- The result of `exchange` when the transport reports an error. -/
theorem exchange_transport_error {α ρ : Type} (rep : Client) (json : JSON α ρ) (call : Nat)
    (guid subject : String) (payload : Bytes) (resp : Option ρ) (before : List Event)
    (bytes : Bytes) (e : GoError)
    (h : rep.client.Request call guid subject payload rep.timeout = (bytes, some e)) :
    exchange rep json call guid subject payload resp before =
      { trace := before ++ [Event.transport call guid subject payload rep.timeout],
        resp := resp, err := some e } := by
  unfold exchange
  simp [h]

/-- The result of `exchange` when the transport hands back the reserved payload. -/
theorem exchange_sentinel {α ρ : Type} (rep : Client) (json : JSON α ρ) (call : Nat)
    (guid subject : String) (payload : Bytes) (resp : Option ρ) (before : List Event)
    (h : rep.client.Request call guid subject payload rep.timeout = (sentinel, none)) :
    exchange rep json call guid subject payload resp before =
      { trace := before ++ [Event.transport call guid subject payload rep.timeout],
        resp := resp, err := some GoError.RequestFailedError } := by
  unfold exchange
  simp [h]

/-- The result of `exchange` on any other payload, with a destination. -/
theorem exchange_decode {α ρ : Type} (rep : Client) (json : JSON α ρ) (call : Nat)
    (guid subject : String) (payload : Bytes) (dest : ρ) (before : List Event)
    (response : Bytes)
    (h : rep.client.Request call guid subject payload rep.timeout = (response, none))
    (hs : response ≠ sentinel) :
    exchange rep json call guid subject payload (some dest) before =
      { trace := before ++ [Event.transport call guid subject payload rep.timeout] ++
          [Event.unmarshal response],
        resp := some (json.Unmarshal response dest).1,
        err := (json.Unmarshal response dest).2 } := by
  unfold exchange
  simp [h, hs]

/-- The result of `exchange` on any other payload, without a destination. -/
theorem exchange_no_dest {α ρ : Type} (rep : Client) (json : JSON α ρ) (call : Nat)
    (guid subject : String) (payload : Bytes) (before : List Event) (response : Bytes)
    (h : rep.client.Request call guid subject payload rep.timeout = (response, none))
    (hs : response ≠ sentinel) :
    exchange rep json call guid subject payload (none : Option ρ) before =
      { trace := before ++ [Event.transport call guid subject payload rep.timeout],
        resp := none, err := none } := by
  unfold exchange
  simp [h, hs]

/-- Once the request value is encoded, `request` is `exchange` on the payload. -/
theorem request_of_encoded {α ρ : Type} (rep : Client) (json : JSON α ρ) (call : Nat)
    (guid subject : String) (req : Option α) (resp : Option ρ) (payload : Bytes)
    (h : encodeRequest json req = (payload, none)) :
    ∃ before, (∀ e ∈ before, e = Event.marshal) ∧
      request rep json call guid subject req resp =
        exchange rep json call guid subject payload resp before := by
  cases req with
  | none =>
    simp only [encodeRequest, Prod.mk.injEq] at h
    exact ⟨[], by simp, by simp [request, ← h.1]⟩
  | some v =>
    simp only [encodeRequest] at h
    exact ⟨[Event.marshal], by simp, by simp [request, h]⟩

/-- When encoding fails, `request` returns the encode error at once. -/
theorem request_of_encode_error {α ρ : Type} (rep : Client) (json : JSON α ρ) (call : Nat)
    (guid subject : String) (req : Option α) (resp : Option ρ) (bytes : Bytes) (e : GoError)
    (h : encodeRequest json req = (bytes, some e)) :
    request rep json call guid subject req resp =
      { trace := [Event.marshal], resp := resp, err := some e } := by
  cases req with
  | none => simp [encodeRequest] at h
  | some v =>
    simp only [encodeRequest] at h
    simp [request, h]

/-- C4. Sentinel precedence in `request`: when the request value is absent or
encodes and the transport returns, without error, exactly the bytes `error`,
`request` returns `RequestFailedError`, never calls `json.Unmarshal` and leaves
the destination as it was, with or without a destination; on any other payload
the returned error is not produced by the sentinel check: it is the error of
decoding (with a destination) or nil (without one). -/
theorem request_sentinel_precedence {α ρ : Type} (rep : Client) (json : JSON α ρ)
    (call : Nat) (guid subject : String) (req : Option α) (resp : Option ρ)
    (payload response : Bytes)
    (henc : encodeRequest json req = (payload, none))
    (hreply : rep.client.Request call guid subject payload rep.timeout = (response, none)) :
    (response = sentinel →
      (request rep json call guid subject req resp).err = some GoError.RequestFailedError ∧
      (request rep json call guid subject req resp).resp = resp ∧
      unmarshalCalls (request rep json call guid subject req resp).trace = []) ∧
    (response ≠ sentinel →
      (request rep json call guid subject req resp).err =
        match resp with
        | some dest => (json.Unmarshal response dest).2
        | none => none) := by
  obtain ⟨before, hb, hreq⟩ := request_of_encoded rep json call guid subject req resp payload henc
  have hbefore : unmarshalCalls before = [] := by
    simp only [unmarshalCalls, List.filter_eq_nil_iff]
    intro e he
    rw [hb e he]
    simp [Event.isUnmarshal]
  rw [hreq]
  constructor
  · intro hs
    subst hs
    rw [exchange_sentinel rep json call guid subject payload resp before hreply]
    refine ⟨rfl, rfl, ?_⟩
    simp only [unmarshalCalls] at hbefore
    simp [unmarshalCalls, hbefore, Event.isUnmarshal]
  · intro hs
    cases resp with
    | none => rw [exchange_no_dest rep json call guid subject payload before response hreply hs]
    | some dest =>
      rw [exchange_decode rep json call guid subject payload dest before response hreply hs]

/-- C4 at a concrete input: the target answers `error` to a query with a
destination; the destination keeps its value `[1]`. -/
theorem request_sentinel_precedence_witness :
    (request saysError bytesJSON 0 "a" "lrp_auction_infos" none (some [1])).err =
        some GoError.RequestFailedError ∧
      (request saysError bytesJSON 0 "a" "lrp_auction_infos" none (some [1])).resp = some [1] ∧
      unmarshalCalls
        (request saysError bytesJSON 0 "a" "lrp_auction_infos" none (some [1])).trace = [] :=
  (request_sentinel_precedence saysError bytesJSON 0 "a" "lrp_auction_infos" none (some [1])
    [] sentinel rfl rfl).1 rfl

/-- C6. `request` calls the transport at most once: exactly once, with the
target, the subject, the payload and the configured timeout, when the request
value is nil (payload of length zero) or encodes (payload is the encoding), and
not at all when encoding fails, in which case the encode error is returned. -/
theorem request_transport_once {α ρ : Type} (rep : Client) (json : JSON α ρ)
    (call : Nat) (guid subject : String) (req : Option α) (resp : Option ρ) :
    (transportCalls (request rep json call guid subject req resp).trace).length ≤ 1 ∧
    match req with
    | none =>
      transportCalls (request rep json call guid subject req resp).trace =
        [Event.transport call guid subject [] rep.timeout]
    | some v =>
      match json.Marshal v with
      | (payload, none) =>
        transportCalls (request rep json call guid subject req resp).trace =
          [Event.transport call guid subject payload rep.timeout]
      | (_, some e) =>
        transportCalls (request rep json call guid subject req resp).trace = [] ∧
        (request rep json call guid subject req resp).err = some e := by
  cases req with
  | none =>
    simp only [request, transportCalls_exchange]
    simp [transportCalls]
  | some v =>
    rcases h : json.Marshal v with ⟨payload, _ | e⟩
    · simp only [request, h, transportCalls_exchange]
      simp [transportCalls, Event.isTransport]
    · simp [request, h, transportCalls, Event.isTransport]

/-- C7. When the transport reports an error, `request` returns exactly that
error whatever bytes come with it: `json.Unmarshal` is not called and the
destination keeps its value. -/
theorem request_transport_error {α ρ : Type} (rep : Client) (json : JSON α ρ)
    (call : Nat) (guid subject : String) (req : Option α) (resp : Option ρ)
    (payload bytes : Bytes) (e : GoError)
    (henc : encodeRequest json req = (payload, none))
    (hreply : rep.client.Request call guid subject payload rep.timeout = (bytes, some e)) :
    (request rep json call guid subject req resp).err = some e ∧
    (request rep json call guid subject req resp).resp = resp ∧
    unmarshalCalls (request rep json call guid subject req resp).trace = [] := by
  obtain ⟨before, hb, hreq⟩ := request_of_encoded rep json call guid subject req resp payload henc
  have hbefore : unmarshalCalls before = [] := by
    simp only [unmarshalCalls, List.filter_eq_nil_iff]
    intro e he
    rw [hb e he]
    simp [Event.isUnmarshal]
  rw [hreq, exchange_transport_error rep json call guid subject payload resp before bytes e hreply]
  refine ⟨rfl, rfl, ?_⟩
  simp only [unmarshalCalls] at hbefore
  simp [unmarshalCalls, hbefore, Event.isUnmarshal]

/-- C7 at a concrete input: a timeout that comes with the bytes `7`, which would
decode; the caller gets the timeout and the destination keeps its value. -/
theorem request_transport_error_witness :
    (request lateReply scoreJSON 0 "a" "score" (some ()) (some ScoreResult.zero)).err =
        some GoError.TimeoutError ∧
      (request lateReply scoreJSON 0 "a" "score" (some ()) (some ScoreResult.zero)).resp =
        some ScoreResult.zero ∧
      unmarshalCalls
        (request lateReply scoreJSON 0 "a" "score" (some ()) (some ScoreResult.zero)).trace = [] :=
  request_transport_error lateReply scoreJSON 0 "a" "score" (some ()) (some ScoreResult.zero)
    [123, 125] [55] GoError.TimeoutError rfl rfl

/-- C8. After a successful encode and a transport reply without error that is
not the reserved payload: with a destination, `request` returns exactly what
decoding the payload into the destination returns, and the destination holds what
the decoder stored; without a destination it returns nil whatever the payload.
Hence `request` returns nil exactly when encoding succeeded, the transport
succeeded, the payload is not the reserved one and the destination is absent or
decoding succeeded. -/
theorem request_decode {α ρ : Type} (rep : Client) (json : JSON α ρ)
    (call : Nat) (guid subject : String) (req : Option α) (resp : Option ρ) :
    (∀ payload response, encodeRequest json req = (payload, none) →
      rep.client.Request call guid subject payload rep.timeout = (response, none) →
      response ≠ sentinel →
      (∀ dest, resp = some dest →
        (request rep json call guid subject req resp).err = (json.Unmarshal response dest).2 ∧
        (request rep json call guid subject req resp).resp =
          some (json.Unmarshal response dest).1) ∧
      (resp = none → (request rep json call guid subject req resp).err = none)) ∧
    ((request rep json call guid subject req resp).err = none ↔
      ∃ payload response, encodeRequest json req = (payload, none) ∧
        rep.client.Request call guid subject payload rep.timeout = (response, none) ∧
        response ≠ sentinel ∧
        (resp = none ∨ ∃ dest, resp = some dest ∧ (json.Unmarshal response dest).2 = none)) := by
  have part : ∀ payload response, encodeRequest json req = (payload, none) →
      rep.client.Request call guid subject payload rep.timeout = (response, none) →
      response ≠ sentinel →
      (∀ dest, resp = some dest →
        (request rep json call guid subject req resp).err = (json.Unmarshal response dest).2 ∧
        (request rep json call guid subject req resp).resp =
          some (json.Unmarshal response dest).1) ∧
      (resp = none → (request rep json call guid subject req resp).err = none) := by
    intro payload response henc hreply hs
    obtain ⟨before, _, hreq⟩ :=
      request_of_encoded rep json call guid subject req resp payload henc
    constructor
    · intro dest hd
      subst hd
      rw [hreq, exchange_decode rep json call guid subject payload dest before response hreply hs]
      exact ⟨rfl, rfl⟩
    · intro hd
      subst hd
      rw [hreq, exchange_no_dest rep json call guid subject payload before response hreply hs]
  refine ⟨part, ?_, ?_⟩
  · intro hnil
    rcases henc : encodeRequest json req with ⟨payload, _ | e⟩
    · rcases hreply : rep.client.Request call guid subject payload rep.timeout with
        ⟨response, _ | e⟩
      · obtain ⟨before, _, hreq⟩ :=
          request_of_encoded rep json call guid subject req resp payload henc
        by_cases hs : response = sentinel
        · subst hs
          rw [hreq, exchange_sentinel rep json call guid subject payload resp before hreply]
            at hnil
          simp at hnil
        · refine ⟨payload, response, rfl, hreply, hs, ?_⟩
          cases resp with
          | none => exact Or.inl rfl
          | some dest =>
            rw [((part payload response henc hreply hs).1 dest rfl).1] at hnil
            exact Or.inr ⟨dest, rfl, hnil⟩
      · obtain ⟨before, _, hreq⟩ :=
          request_of_encoded rep json call guid subject req resp payload henc
        rw [hreq, exchange_transport_error rep json call guid subject payload resp before
          response e hreply] at hnil
        simp at hnil
    · rw [request_of_encode_error rep json call guid subject req resp payload e henc] at hnil
      simp at hnil
  · rintro ⟨payload, response, henc, hreply, hs, hd | ⟨dest, hd, hdec⟩⟩
    · exact (part payload response henc hreply hs).2 hd
    · rw [((part payload response henc hreply hs).1 dest hd).1, hdec]

/-- C8 at a concrete input: the payload `7` is decoded into the destination and
`request` returns nil. -/
theorem request_decode_witness :
    (request bTimesOut scoreJSON 0 "a" "score" (some ()) (some ScoreResult.zero)).err = none ∧
      (request bTimesOut scoreJSON 0 "a" "score" (some ()) (some ScoreResult.zero)).resp =
        some { Score := 7, Error := "" } :=
  ((request_decode bTimesOut scoreJSON 0 "a" "score" (some ()) (some ScoreResult.zero)).1
    [123, 125] [55] rfl (by decide) (by decide)).1 ScoreResult.zero rfl

/-! ## Scheduling -/

/-- A choice below the number of ready units takes the head of one unit. -/
theorem pick_spec {β : Type} (units : List (List β)) :
    ∀ k, k < readyCount units →
      ∃ a u l₁ l₂, units = l₁ ++ (a :: u) :: l₂ ∧ pick k units = some (a, l₁ ++ u :: l₂) := by
  induction units with
  | nil => intro k hk; simp [readyCount] at hk
  | cons x rest ih =>
    intro k hk
    cases x with
    | nil =>
      obtain ⟨a, u, l₁, l₂, h₁, h₂⟩ := ih k (by simpa [readyCount] using hk)
      exact ⟨a, u, [] :: l₁, l₂, by simp [h₁], by simp [pick, h₂]⟩
    | cons b x' =>
      cases k with
      | zero => exact ⟨b, x', [], rest, by simp, by simp [pick]⟩
      | succ k =>
        obtain ⟨a, u, l₁, l₂, h₁, h₂⟩ := ih k (by simpa [readyCount] using hk)
        exact ⟨a, u, (b :: x') :: l₁, l₂, by simp [h₁], by simp [pick, h₂]⟩

/-- While some unit is ready, every choice makes a move, and the move takes the
head of one unit. -/
theorem schedule_spec {β : Type} (choice : Nat) (units : List (List β))
    (h : readyCount units ≠ 0) :
    ∃ a u l₁ l₂, units = l₁ ++ (a :: u) :: l₂ ∧
      schedule choice units = some (a, l₁ ++ u :: l₂) := by
  have hlt : choice % readyCount units < readyCount units :=
    Nat.mod_lt _ (Nat.pos_of_ne_zero h)
  obtain ⟨a, u, l₁, l₂, h₁, h₂⟩ := pick_spec units _ hlt
  exact ⟨a, u, l₁, l₂, h₁, by simp [schedule, h, h₂]⟩

/-- No unit is ready exactly when no work is pending. -/
theorem readyCount_eq_zero_iff {β : Type} (units : List (List β)) :
    readyCount units = 0 ↔ pendingWork units = 0 := by
  induction units with
  | nil => simp [readyCount, pendingWork]
  | cons x rest ih =>
    cases x with
    | nil => simpa [readyCount, pendingWork] using ih
    | cons b x' => simp [readyCount, pendingWork]

/-- The number of ready units of a concatenation. -/
theorem readyCount_append {β : Type} (l₁ l₂ : List (List β)) :
    readyCount (l₁ ++ l₂) = readyCount l₁ + readyCount l₂ := by
  induction l₁ with
  | nil => simp [readyCount]
  | cons x rest ih =>
    cases x with
    | nil => simpa [readyCount] using ih
    | cons b x' => simp [readyCount, ih]; omega

/-- A move removes one pending action. -/
theorem pendingWork_move {β : Type} (a : β) (u : List β) (l₁ l₂ : List (List β)) :
    pendingWork (l₁ ++ (a :: u) :: l₂) = pendingWork (l₁ ++ u :: l₂) + 1 := by
  simp [pendingWork]
  omega

/-- Units that all have something to do hold at least one action each. -/
theorem length_le_pendingWork {β γ : Type} (f : γ → List β) (l : List γ)
    (h : ∀ x ∈ l, 1 ≤ (f x).length) : l.length ≤ pendingWork (l.map f) := by
  induction l with
  | nil => simp
  | cons x rest ih =>
    have h₁ := h x (by simp)
    have h₂ := ih fun y hy => h y (by simp [hy])
    simp only [pendingWork, List.map_cons, List.sum_cons, List.length_cons] at *
    omega

/-! ## `batch` -/

/-- What a unit of `batch` sends: the response variable alone when `request`
returns nil; an error result and then the response variable as well when
`request` returns an error. -/
theorem unitSends_eq {α : Type} (rep : Client) (json : JSON α ScoreResult)
    (subject : String) (inst : α) (i : Nat) (guid : String) :
    unitSends rep json subject inst i guid =
      match (request rep json i guid subject (some inst) (some ScoreResult.zero)).err with
      | some err =>
        [{ Score := 0, Error := err.Error },
          (request rep json i guid subject (some inst) (some ScoreResult.zero)).resp.getD
            ScoreResult.zero]
      | none =>
        [(request rep json i guid subject (some inst) (some ScoreResult.zero)).resp.getD
          ScoreResult.zero] := by
  simp only [unitSends]
  split <;> rfl

/-- Every unit of `batch` sends at least one value. -/
theorem unitSends_length_pos {α : Type} (rep : Client) (json : JSON α ScoreResult)
    (subject : String) (inst : α) (i : Nat) (guid : String) :
    1 ≤ (unitSends rep json subject inst i guid).length := by
  simp only [unitSends]
  split <;> simp

/-- The collector returns once it has received one value per target, provided
at least that many sends are pending. -/
theorem collect_length (guids : List String) :
    ∀ (sched : List Nat) (units : List (List ScoreResult)) (scores : ScoreResults),
      guids.length ≤ pendingWork units →
      ∃ r, collect guids sched units scores = some r ∧
        r.length = scores.length + guids.length := by
  induction guids with
  | nil => intro sched units scores _; exact ⟨scores, rfl, rfl⟩
  | cons g rest ih =>
    intro sched units scores h
    have hready : readyCount units ≠ 0 := by
      intro h0
      rw [readyCount_eq_zero_iff] at h0
      simp [h0] at h
    obtain ⟨a, u, l₁, l₂, h₁, h₂⟩ := schedule_spec (sched.headD 0) units hready
    have hwork : rest.length ≤ pendingWork (l₁ ++ u :: l₂) := by
      rw [h₁, pendingWork_move] at h
      simpa using h
    obtain ⟨r, hr, hlen⟩ := ih sched.tail (l₁ ++ u :: l₂) (scores ++ [a]) hwork
    refine ⟨r, ?_, ?_⟩
    · rw [collect, h₂]
      exact hr
    · simp [hlen]
      omega

/-- C3. For every sequence of targets (empty or with duplicates), every
behaviour of the transport and the decoder and every order of the receives,
`batch` returns, and the result has exactly `len(guids)` elements; `Score` and
`ScoreThenTentativelyReserve` return what `batch` returns. -/
theorem batch_length {α : Type} (rep : Client) (json : JSON α ScoreResult)
    (sched : List Nat) (subject : String) (guids : List String) (inst : α) :
    (∃ scores, batch rep json sched subject guids inst = some scores ∧
      scores.length = guids.length) ∧
    Score rep json sched guids inst = batch rep json sched "score" guids inst ∧
    ScoreThenTentativelyReserve rep json sched guids inst =
      batch rep json sched "score_then_tentatively_reserve" guids inst := by
  refine ⟨?_, rfl, rfl⟩
  have hwork : guids.length ≤
      pendingWork (guids.enum.map fun p => unitSends rep json subject inst p.1 p.2) := by
    have := length_le_pendingWork (fun p : Nat × String => unitSends rep json subject inst p.1 p.2)
      guids.enum (fun p _ => unitSends_length_pos rep json subject inst p.1 p.2)
    simpa using this
  obtain ⟨r, hr, hlen⟩ := collect_length guids sched _ [] hwork
  exact ⟨r, hr, by simpa using hlen⟩

/-- C1. The targets `a`, `b`, `c`, where `b` times out and the others answer 7:
when the collector receives both sends of the unit of `b` and then the send of
the unit of `a`, `batch` returns an error result, a zero result and one
success; this is not the collection of the three per-target outcomes. -/
theorem batch_duplicate_result :
    batch bTimesOut scoreJSON [1, 1, 0] "score" ["a", "b", "c"] () =
        some [{ Score := 0, Error := "timeout" }, { Score := 0, Error := "" },
          { Score := 7, Error := "" }] ∧
      ¬ List.Perm
        [{ Score := 0, Error := "timeout" }, { Score := 0, Error := "" },
          ({ Score := 7, Error := "" } : ScoreResult)]
        [{ Score := 7, Error := "" }, { Score := 0, Error := "timeout" },
          { Score := 7, Error := "" }] := by
  decide

/-- C2. The unit of a target whose request times out sends two values: the
error result and then the response variable, still zero. -/
theorem unitSends_on_error :
    (request bTimesOut scoreJSON 1 "b" "score" (some ()) (some ScoreResult.zero)).err =
        some GoError.TimeoutError ∧
      unitSends bTimesOut scoreJSON "score" () 1 "b" =
        [{ Score := 0, Error := "timeout" }, { Score := 0, Error := "" }] ∧
      (unitSends bTimesOut scoreJSON "score" () 1 "b").length = 2 := by
  decide

/-! ## Single-target operations -/

/-- C5, as stated, fails: with a transport that times out, `request` fails,
`Reset` ends in a panic and `Run` returns normally. -/
theorem single_target_failure_unreported :
    (request allTimeOut bytesJSON 0 "a" "reset" none (none : Option Bytes)).err =
        some GoError.TimeoutError ∧
      (Reset allTimeOut bytesJSON "a").outcome = Outcome.panicked GoError.TimeoutError ∧
      (request allTimeOut bytesJSON 0 "a" "run" (some [1]) (none : Option Bytes)).err =
        some GoError.TimeoutError ∧
      (Run allTimeOut bytesJSON "a" [1]).outcome = Outcome.returned () := by
  decide

/-- C5, amended. When the underlying `request` fails with `e`, the operations
`TotalResources`, `LRPAuctionInfos`, `Reset` and `SetLRPAuctionInfos` panic with
`e`, and `Run` writes `failed to run: ` followed by the text of `e` to the log
and returns normally. -/
theorem single_target_failure {Resources α Info ρ Start : Type} (rep : Client)
    (jsonTotal : JSON Bytes Resources) (zero : Resources) (jsonInfos : JSON α (List Info))
    (jsonReset : JSON α ρ) (jsonSet : JSON (List Info) ρ) (jsonRun : JSON Start ρ)
    (guid : String) (instances : List Info) (inst : Start) (e : GoError) :
    ((request rep jsonTotal 0 guid "total_resources" (some []) (some zero)).err = some e →
      (TotalResources rep jsonTotal zero guid).outcome = Outcome.panicked e) ∧
    ((request rep jsonInfos 0 guid "lrp_auction_infos" none (some [])).err = some e →
      (LRPAuctionInfos rep jsonInfos guid).outcome = Outcome.panicked e) ∧
    ((request rep jsonReset 0 guid "reset" none none).err = some e →
      (Reset rep jsonReset guid).outcome = Outcome.panicked e) ∧
    ((request rep jsonSet 0 guid "set_lrp_auction_infos" (some instances) none).err = some e →
      (SetLRPAuctionInfos rep jsonSet guid instances).outcome = Outcome.panicked e) ∧
    ((request rep jsonRun 0 guid "run" (some inst) none).err = some e →
      (Run rep jsonRun guid inst).outcome = Outcome.returned () ∧
      (Run rep jsonRun guid inst).log = ["failed to run: " ++ e.Error]) := by
  refine ⟨?_, ?_, ?_, ?_, ?_⟩
  · intro h; simp [TotalResources, h]
  · intro h; simp [LRPAuctionInfos, h]
  · intro h; simp [Reset, h]
  · intro h; simp [SetLRPAuctionInfos, h]
  · intro h; simp [Run, h]

/-- C5, amended, at a concrete input: a transport that times out. -/
theorem single_target_failure_witness :
    (TotalResources allTimeOut bytesJSON [] "a").outcome =
        Outcome.panicked GoError.TimeoutError ∧
      (Run allTimeOut bytesJSON "a" [1]).log = ["failed to run: timeout"] :=
  have h := single_target_failure allTimeOut bytesJSON [] bytesJSON bytesJSON bytesJSON bytesJSON
    "a" [1] [1] GoError.TimeoutError
  ⟨h.1 (by decide), (h.2.2.2.2 (by decide)).2⟩

/-- C10. `LRPAuctionInfos` calls the transport with a payload of length zero,
but `TotalResources` calls it with the two bytes `""`, the JSON encoding of its
request value `[]byte{}`. -/
theorem TotalResources_payload :
    transportCalls (LRPAuctionInfos echo bytesJSON "a").trace =
        [Event.transport 0 "a" "lrp_auction_infos" [] 1000] ∧
      transportCalls (TotalResources echo bytesJSON [] "a").trace =
        [Event.transport 0 "a" "total_resources" [34, 34] 1000] := by
  decide

/-! ## `ReleaseReservation` -/

/-- Units that all have something to do are all ready. -/
theorem readyCount_map_of_ne_nil {β γ : Type} (f : γ → List β) (l : List γ)
    (h : ∀ x, f x ≠ []) : readyCount (l.map f) = l.length := by
  induction l with
  | nil => rfl
  | cons x rest ih =>
    cases hx : f x with
    | nil => exact absurd hx (h x)
    | cons b x' => simp [readyCount, hx, ih]

/-- At the start every target's call is still to be made. -/
theorem pendingCalls_start (l : List (Nat × String)) :
    pendingCalls (l.map fun p => [Action.call p.1 p.2, Action.done]) = l := by
  induction l with
  | nil => rfl
  | cons x rest ih =>
    simp only [pendingCalls] at ih
    simp [pendingCalls, Action.target, ih]

/-- When no work is pending, every unit has finished. -/
theorem units_finished_of_pendingWork {β : Type} (units : List (List β))
    (h : pendingWork units = 0) : ∀ u ∈ units, u = [] := by
  induction units with
  | nil => simp
  | cons x rest ih =>
    simp only [pendingWork, List.map_cons, List.sum_cons] at h
    intro u hu
    rcases List.mem_cons.1 hu with h₁ | h₁
    · subst h₁
      exact List.length_eq_zero.1 (by omega)
    · exact ih (by simp only [pendingWork]; omega) u h₁

/-- When every unit has finished, no work is pending. -/
theorem pendingWork_of_units_finished {β : Type} (units : List (List β))
    (h : ∀ u ∈ units, u = []) : pendingWork units = 0 := by
  induction units with
  | nil => rfl
  | cons x rest ih =>
    have hx : x = [] := h x (by simp)
    have hr := ih fun u hu => h u (by simp [hu])
    simp only [pendingWork] at hr
    simp [pendingWork, hx, hr]

/-- When every unit has finished, no call is still to be made. -/
theorem pendingCalls_of_units_finished (units : List (List Action))
    (h : ∀ u ∈ units, u = []) : pendingCalls units = [] := by
  induction units with
  | nil => rfl
  | cons x rest ih =>
    have hx : x = [] := h x (by simp)
    have hr := ih fun u hu => h u (by simp [hu])
    simp only [pendingCalls] at hr
    simp [pendingCalls, hx, hr]

/-- The invariant holds once the units are spawned. -/
theorem Barrier.inv_init {α ρ : Type} (rep : Client) (json : JSON α ρ) (inst : α)
    (guids : List String) : Barrier.Inv rep json inst guids (Barrier.init ρ guids) where
  shape := by
    intro u hu
    simp only [Barrier.init, List.mem_map] at hu
    obtain ⟨p, _, hp⟩ := hu
    exact Or.inr (Or.inr ⟨p.1, p.2, hp.symm⟩)
  count := by
    simp only [Barrier.init]
    rw [readyCount_map_of_ne_nil _ _ (by intro x; simp)]
    simp
  calls := by
    simp only [Barrier.init, List.map_nil, List.nil_append]
    rw [pendingCalls_start]
  made := by
    intro c hc
    simp [Barrier.init] at hc

/-- Every statement a unit executes keeps the invariant. -/
theorem Barrier.inv_exec {α ρ : Type} (rep : Client) (json : JSON α ρ) (inst : α)
    (guids : List String) (st : Barrier ρ) (a : Action) (u : List Action)
    (l₁ l₂ : List (List Action)) (hinv : Barrier.Inv rep json inst guids st)
    (hunits : st.units = l₁ ++ (a :: u) :: l₂) :
    Barrier.Inv rep json inst guids (Barrier.exec rep json inst st a (l₁ ++ u :: l₂)) := by
  have hshape := hinv.shape
  have hcount := hinv.count
  have hcalls := hinv.calls
  rw [hunits] at hshape hcount hcalls
  have hrest : ∀ v ∈ l₁ ++ u :: l₂, v ≠ u →
      v = [] ∨ v = [Action.done] ∨ ∃ i guid, v = [Action.call i guid, Action.done] := by
    intro v hv hne
    apply hshape
    simp only [List.mem_append, List.mem_cons] at hv ⊢
    rcases hv with h | h | h
    · exact Or.inl h
    · exact absurd h hne
    · exact Or.inr (Or.inr h)
  rcases hshape (a :: u) (by simp) with h | h | ⟨i, guid, h⟩
  · simp at h
  · -- the unit calls `Done`
    obtain ⟨ha, hu⟩ := List.cons_eq_cons.1 h
    subst ha hu
    refine ⟨?_, ?_, ?_, ?_⟩
    · intro v hv
      by_cases hne : v = []
      · exact Or.inl hne
      · exact hrest v hv hne
    · simp only [Barrier.exec, hcount, readyCount_append, readyCount]
      push_cast
      omega
    · simp only [Barrier.exec]
      simpa [pendingCalls, Action.target] using hcalls
    · exact hinv.made
  · -- the unit calls `request`
    obtain ⟨ha, hu⟩ := List.cons_eq_cons.1 h
    subst ha hu
    refine ⟨?_, ?_, ?_, ?_⟩
    · intro v hv
      by_cases hne : v = [Action.done]
      · exact Or.inr (Or.inl hne)
      · exact hrest v hv hne
    · simp only [Barrier.exec, hcount, readyCount_append, readyCount]
    · simp only [Barrier.exec]
      refine List.Perm.trans ?_ hcalls
      simp only [pendingCalls, List.flatten_append, List.flatten_cons, List.filterMap_append,
        List.map_append, List.map_cons, List.map_nil, Completed.target, List.filterMap_cons,
        Action.target, List.filterMap_nil, List.append_assoc, List.singleton_append,
        List.cons_append, List.nil_append]
      apply List.Perm.append_left
      exact List.perm_middle.symm
    · intro c hc
      simp only [Barrier.exec, List.mem_append, List.mem_singleton] at hc
      rcases hc with hc | hc
      · exact hinv.made c hc
      · subst hc
        exact ⟨rfl, rfl, rfl⟩

/-- While the counter is not zero some unit can move; the move keeps the
invariant and removes one pending statement. -/
theorem Barrier.step_spec {α ρ : Type} (rep : Client) (json : JSON α ρ) (inst : α)
    (guids : List String) (choice : Nat) (st : Barrier ρ)
    (hinv : Barrier.Inv rep json inst guids st) (h : readyCount st.units ≠ 0) :
    ∃ st', Barrier.step rep json inst choice st = some st' ∧
      Barrier.Inv rep json inst guids st' ∧
      pendingWork st'.units + 1 = pendingWork st.units := by
  obtain ⟨a, u, l₁, l₂, h₁, h₂⟩ := schedule_spec choice st.units h
  refine ⟨Barrier.exec rep json inst st a (l₁ ++ u :: l₂), ?_, ?_, ?_⟩
  · simp [Barrier.step, h₂]
  · exact Barrier.inv_exec rep json inst guids st a u l₁ l₂ hinv h₁
  · rw [h₁, pendingWork_move]
    cases a <;> rfl

/-- No unit moves once all have finished. -/
theorem Barrier.step_none {α ρ : Type} (rep : Client) (json : JSON α ρ) (inst : α)
    (choice : Nat) (st : Barrier ρ) (h : readyCount st.units = 0) :
    Barrier.step rep json inst choice st = none := by
  simp [Barrier.step, schedule, h]

/-- The invariant holds in every state the system can reach. -/
theorem Barrier.inv_run {α ρ : Type} (rep : Client) (json : JSON α ρ) (inst : α)
    (guids : List String) (moves : List Nat) :
    ∀ st, Barrier.Inv rep json inst guids st →
      Barrier.Inv rep json inst guids (Barrier.run rep json inst moves st) := by
  induction moves with
  | nil => intro st h; exact h
  | cons choice rest ih =>
    intro st h
    by_cases hr : readyCount st.units = 0
    · simp only [Barrier.run, Barrier.step_none rep json inst choice st hr]
      exact h
    · obtain ⟨st', hs, hinv, _⟩ := Barrier.step_spec rep json inst guids choice st h hr
      simp only [Barrier.run, hs]
      exact ih st' hinv

/-- With fuel for all pending statements, `Wait` returns, in a state that
satisfies the invariant and whose counter is zero. -/
theorem Barrier.wait_returns {α ρ : Type} (rep : Client) (json : JSON α ρ) (inst : α)
    (guids : List String) (fuel : Nat) :
    ∀ (sched : List Nat) (st : Barrier ρ), Barrier.Inv rep json inst guids st →
      pendingWork st.units ≤ fuel →
      ∃ st', Barrier.wait rep json inst fuel sched st = some st' ∧
        Barrier.Inv rep json inst guids st' ∧ st'.counter = 0 := by
  induction fuel with
  | zero =>
    intro sched st hinv hwork
    have hr : readyCount st.units = 0 :=
      (readyCount_eq_zero_iff st.units).2 (Nat.le_zero.1 hwork)
    have hc : st.counter = 0 := by rw [hinv.count, hr]; rfl
    exact ⟨st, by simp [Barrier.wait, hc], hinv, hc⟩
  | succ fuel ih =>
    intro sched st hinv hwork
    by_cases hc : st.counter = 0
    · exact ⟨st, by simp [Barrier.wait, hc], hinv, hc⟩
    · have hr : readyCount st.units ≠ 0 := by
        intro h0
        apply hc
        rw [hinv.count, h0]
        rfl
      obtain ⟨st', hs, hinv', hdec⟩ :=
        Barrier.step_spec rep json inst guids (sched.headD 0) st hinv hr
      obtain ⟨st₂, hw, hinv₂, hc₂⟩ := ih sched.tail st' hinv' (by omega)
      refine ⟨st₂, ?_, hinv₂, hc₂⟩
      rw [Barrier.wait, if_neg hc, hs]
      exact hw

/-- In a state that satisfies the invariant, the counter is zero exactly when
every unit has finished. -/
theorem Barrier.counter_zero_iff {α ρ : Type} (rep : Client) (json : JSON α ρ) (inst : α)
    (guids : List String) (st : Barrier ρ) (hinv : Barrier.Inv rep json inst guids st) :
    st.counter = 0 ↔ ∀ u ∈ st.units, u = [] := by
  rw [hinv.count]
  constructor
  · intro h
    have h0 : readyCount st.units = 0 := by exact_mod_cast h
    exact units_finished_of_pendingWork _ ((readyCount_eq_zero_iff _).1 h0)
  · intro h
    have h0 := (readyCount_eq_zero_iff _).2 (pendingWork_of_units_finished _ h)
    rw [h0]
    rfl

/-- In a state that satisfies the invariant and whose counter is zero, the
calls of `request` that have returned are one per target. -/
theorem Barrier.completed_of_counter_zero {α ρ : Type} (rep : Client) (json : JSON α ρ)
    (inst : α) (guids : List String) (st : Barrier ρ)
    (hinv : Barrier.Inv rep json inst guids st) (h : st.counter = 0) :
    (st.completed.map Completed.target).Perm guids.enum := by
  have hfin := (Barrier.counter_zero_iff rep json inst guids st hinv).1 h
  have hcalls := hinv.calls
  rw [pendingCalls_of_units_finished _ hfin, List.append_nil] at hcalls
  exact hcalls

/-- C9. Barrier completion in `ReleaseReservation`, for every sequence of
targets, every behaviour of the transport (all calls may fail) and every
interleaving of the units.  The counter starts at `len(guids)`.  In every state
the system can reach: the counter is the number of units that have not called
`Done`; every unit is at the start, between its call of `request` and `Done`, or
finished; every target's call has returned or is still to be made, never twice;
every returned call had the subject `release-reservation` and no destination;
and the counter is zero exactly when every unit has finished, at which point
the returned calls are one per target.  `Wait` returns under every schedule, in
such a state, and the caller observes nothing but the return. -/
theorem ReleaseReservation_barrier {α ρ : Type} (rep : Client) (json : JSON α ρ)
    (sched : List Nat) (guids : List String) (inst : α) :
    (Barrier.init ρ guids).counter = guids.length ∧
    (∀ moves : List Nat,
      (Barrier.run rep json inst moves (Barrier.init ρ guids)).counter =
        readyCount (Barrier.run rep json inst moves (Barrier.init ρ guids)).units ∧
      (∀ u ∈ (Barrier.run rep json inst moves (Barrier.init ρ guids)).units,
        u = [] ∨ u = [Action.done] ∨ ∃ i guid, u = [Action.call i guid, Action.done]) ∧
      (((Barrier.run rep json inst moves (Barrier.init ρ guids)).completed.map
          Completed.target) ++
        pendingCalls (Barrier.run rep json inst moves (Barrier.init ρ guids)).units).Perm
          guids.enum ∧
      (∀ c ∈ (Barrier.run rep json inst moves (Barrier.init ρ guids)).completed,
        c.subject = "release-reservation" ∧ c.dest = none ∧
        c.result = request rep json c.i c.guid "release-reservation" (some inst) none) ∧
      ((Barrier.run rep json inst moves (Barrier.init ρ guids)).counter = 0 ↔
        ∀ u ∈ (Barrier.run rep json inst moves (Barrier.init ρ guids)).units, u = []) ∧
      ((Barrier.run rep json inst moves (Barrier.init ρ guids)).counter = 0 →
        ((Barrier.run rep json inst moves (Barrier.init ρ guids)).completed.map
          Completed.target).Perm guids.enum)) ∧
    (∃ st, releaseRun rep json sched guids inst = some st ∧ st.counter = 0 ∧
      (∀ u ∈ st.units, u = []) ∧
      (st.completed.map Completed.target).Perm guids.enum ∧
      ∀ c ∈ st.completed, c.subject = "release-reservation" ∧ c.dest = none ∧
        c.result = request rep json c.i c.guid "release-reservation" (some inst) none) ∧
    ReleaseReservation rep json sched guids inst = some () := by
  have hinit : Barrier.Inv rep json inst guids (Barrier.init ρ guids) :=
    Barrier.inv_init rep json inst guids
  have hwork : pendingWork (Barrier.init ρ guids).units ≤ 2 * guids.length := by
    have : ∀ l : List (Nat × String),
        pendingWork (l.map fun p => [Action.call p.1 p.2, Action.done]) = 2 * l.length := by
      intro l
      induction l with
      | nil => rfl
      | cons x rest ih =>
        simp only [pendingWork] at ih
        simp only [pendingWork, List.map_cons, List.sum_cons, List.length_cons, ih]
        simp
        omega
    simp only [Barrier.init]
    rw [this]
    simp
  obtain ⟨st, hst, hinv, hzero⟩ :=
    Barrier.wait_returns rep json inst guids (2 * guids.length) sched _ hinit hwork
  refine ⟨rfl, ?_, ?_, ?_⟩
  · intro moves
    have h := Barrier.inv_run rep json inst guids moves _ hinit
    exact ⟨h.count, h.shape, h.calls, h.made,
      Barrier.counter_zero_iff rep json inst guids _ h,
      Barrier.completed_of_counter_zero rep json inst guids _ h⟩
  · exact ⟨st, hst, hzero, (Barrier.counter_zero_iff rep json inst guids st hinv).1 hzero,
      Barrier.completed_of_counter_zero rep json inst guids st hinv hzero, hinv.made⟩
  · simp [ReleaseReservation, releaseRun, hst]

/-- C9 at a concrete input: five targets that all time out.  After four units
have finished the counter is 1; after all ten statements it is zero, the five
calls have returned, and `ReleaseReservation` returns. -/
theorem ReleaseReservation_barrier_witness :
    (Barrier.run allTimeOut scoreJSON () [0, 0, 0, 0, 0, 0, 0, 0]
        (Barrier.init ScoreResult ["a", "b", "c", "d", "e"])).counter = 1 ∧
      ((Barrier.run allTimeOut scoreJSON () [4, 3, 2, 1, 0, 4, 3, 2, 1, 0]
        (Barrier.init ScoreResult ["a", "b", "c", "d", "e"])).completed.map
          Completed.target).Perm ["a", "b", "c", "d", "e"].enum ∧
      ReleaseReservation allTimeOut scoreJSON [4, 3, 2, 1, 0] ["a", "b", "c", "d", "e"] () =
        some () :=
  have h := ReleaseReservation_barrier allTimeOut scoreJSON [4, 3, 2, 1, 0]
    ["a", "b", "c", "d", "e"] ()
  ⟨by decide, (h.2.1 [4, 3, 2, 1, 0, 4, 3, 2, 1, 0]).2.2.2.2.2 (by decide), h.2.2.2⟩

end RepRabbitClient
